import Mathlib

/-
Shallow embedding of the conc hazard-pointer library
(src/hazard/domain.hpp, src/hazard/hazard_pointer.hpp,
src/containers/queue.hpp, src/containers/stack.hpp).

Machine pointers are modelled by an inductive type with a distinguished
null value, the domain's statically allocated SENTINEL address, and
client node addresses.  Atomics are modelled by explicit state passing;
the sequence of acquire loads of an atomic source is a function
from the load index to the observed value.
-/

/-- Pointer values: null, the domain's SENTINEL address, or a client node
address. The SENTINEL is the address of a static buffer, distinct from null
and from every client node address. -/
inductive Ptr where
  | null : Ptr
  | sentinel : Ptr
  | addr : Nat → Ptr
deriving DecidableEq, Repr

/-- hazard_domain::capture_cell: walk the cell array in order and CAS the
first null cell to SENTINEL; returns the captured index and the updated
cells. none models the fall-through after the loop, where
assert(it != m_acquire_list.end()) fails (abort). -/
def capture_cell : List Ptr → Option (Nat × List Ptr)
  | [] => none
  | c :: rest =>
    if c = Ptr.null then some (0, Ptr.sentinel :: rest)
    else
      match capture_cell rest with
      | some (i, rest') => some (i + 1, c :: rest')
      | none => none

/-- Iterated capture_cell: perform k captures in sequence, keeping the cell
array (a failed capture leaves the cells unchanged). -/
def capture_iter : Nat → List Ptr → List Ptr
  | 0, cells => cells
  | k + 1, cells =>
    match capture_cell cells with
    | some (_, cells') => capture_iter k cells'
    | none => cells

/-- hazard_domain::scan_for_hazard: true iff the pointer equals some entry of
the snapshot (linear search with early return). -/
def scan_for_hazard (pointer : Ptr) : List Ptr → Bool
  | [] => false
  | p :: rest => if pointer = p then true else scan_for_hazard pointer rest

/-- hazard_domain::acquire_snapshot: acquire-load every cell of the array into
a transient array. -/
def acquire_snapshot (cells : List Ptr) : List Ptr := cells

/-- hazard_domain::tl_block: the thread-local retire list, the delete_turn
flag, and the amortization threshold (initially max_objects). -/
structure tl_block where
  tl_retire : List Ptr
  delete_turn : Bool
  amortization_factor : Nat
deriving DecidableEq, Repr

/-- Fresh thread-local block: empty retire list, delete_turn = false,
amortization_factor = max_objects (the in-class initializers). -/
def tl_init (max_objects : Nat) : tl_block :=
  ⟨[], false, max_objects⟩

/-- Threshold update performed at the end of delete_hazards:
std::min(amortization_factor * 2, max_objects * 32). -/
def amortize_update (max_objects f : Nat) : Nat :=
  min (f * 2) (max_objects * 32)

/-- Threshold after k scans, starting from the initial value max_objects. -/
def threshold_after (max_objects : Nat) : Nat → Nat
  | 0 => max_objects
  | k + 1 => amortize_update max_objects (threshold_after max_objects k)

/-- The index-based swap-remove loop of hazard_domain::delete_hazards, viewed
on the window of not-yet-examined entries (positions i..size-1 of the vector).
A kept entry moves out of the window; a deleted entry is replaced by the last
element of the vector, which is examined next. Returns (kept, deleted). -/
def delete_hazards_loop (snapshot : List Ptr) : List Ptr → List Ptr × List Ptr
  | [] => ([], [])
  | [p] =>
    if scan_for_hazard p snapshot then ([p], []) else ([], [p])
  | p :: q :: rest =>
    if scan_for_hazard p snapshot then
      let r := delete_hazards_loop snapshot (q :: rest)
      (p :: r.1, r.2)
    else
      let w := (q :: rest).getLast (List.cons_ne_nil q rest) :: (q :: rest).dropLast
      let r := delete_hazards_loop snapshot w
      (r.1, p :: r.2)
termination_by l => l.length
decreasing_by
  · simp
  · simp [List.length_dropLast]

/-- hazard_domain::delete_hazards: snapshot the cells, run the swap-remove
loop over the retire list, toggle delete_turn, and double-and-cap the
threshold. Returns the new thread-local block and the list of deleted
(deallocated) pointers. -/
def delete_hazards (max_objects : Nat) (cells : List Ptr) (tl : tl_block) :
    tl_block × List Ptr :=
  let snapshot := acquire_snapshot cells
  let r := delete_hazards_loop snapshot tl.tl_retire
  (⟨r.1, !tl.delete_turn, amortize_update max_objects tl.amortization_factor⟩, r.2)

/-- hazard_domain::retire: unconditionally append the pointer to the
thread-local retire list (emplace_back), then run delete_hazards when the
list size exceeds the amortization threshold. Returns the new block and the
pointers deallocated by the triggered scan (empty when no scan ran). -/
def retire (max_objects : Nat) (cells : List Ptr) (tl : tl_block) (data : Ptr) :
    tl_block × List Ptr :=
  let tl1 : tl_block := ⟨tl.tl_retire ++ [data], tl.delete_turn, tl.amortization_factor⟩
  if tl1.amortization_factor < tl1.tl_retire.length then
    delete_hazards max_objects cells tl1
  else
    (tl1, [])

/-- hazard_pointer::reset_protection(T*): a null argument delegates to the
nullary overload, which stores the domain SENTINEL into the cell; otherwise
the pointer itself is stored. Returns the value written to the cell. -/
def reset_protection_val (p : Ptr) : Ptr :=
  if p = Ptr.null then Ptr.sentinel else p

/-- hazard_pointer::try_protect: publish the candidate into the cell
(reset_protection), acquire-re-read src, compare with the old candidate; on
mismatch reset the cell to SENTINEL and report failure. Returns
(result, updated candidate, cell value on return). -/
def try_protect (cand srcVal : Ptr) : Bool × Ptr × Ptr :=
  let old := cand
  let cellStored := reset_protection_val old
  let newCand := srcVal
  if old = newCand then (true, newCand, cellStored)
  else (false, newCand, Ptr.sentinel)

/-- hazard_pointer::protect loop: iterate try_protect, with src k the value
returned by the k-th acquire load of src; fuel bounds the iteration so the
function is total. Returns (returned pointer, cell value on return, index of
the final acquire load). -/
def protect_loop (src : Nat → Ptr) : Nat → Ptr → Nat → Option (Ptr × Ptr × Nat)
  | 0, _, _ => none
  | fuel + 1, cand, k =>
    let r := try_protect cand (src k)
    if r.1 then some (r.2.1, r.2.2, k)
    else protect_loop src fuel r.2.1 (k + 1)

/-- hazard_pointer::protect: initial relaxed load gives the first candidate
init; then loop try_protect against the acquire loads src. -/
def protect (init : Ptr) (src : Nat → Ptr) (fuel : Nat) :
    Option (Ptr × Ptr × Nat) :=
  protect_loop src fuel init 0

/-- hazard_pointer::empty: the code returns m_cell == nullptr. A handle state
is none when detached (m_cell == nullptr) and some v when the handle owns a
cell whose current value is v. -/
def hp_empty (s : Option Ptr) : Bool := s.isNone

/-- reset_protection acting on a handle state: the cell value is overwritten,
the m_cell member (ownership) is untouched. -/
def hp_reset (s : Option Ptr) (p : Ptr) : Option Ptr :=
  s.map (fun _ => reset_protection_val p)

/-- Reachable states of one handle under the hazard_pointer API: default
construction (detached), make_hazard_pointer (capture CASes the cell from
null to SENTINEL), reset_protection, one try_protect step (protect is a loop
of such steps), and destruction (stores null and releases the cell). -/
inductive HPReach : Option Ptr → Prop
  | detached : HPReach none
  | make : HPReach (some Ptr.sentinel)
  | reset (v p : Ptr) : HPReach (some v) → HPReach (hp_reset (some v) p)
  | try_step (v cand srcVal : Ptr) :
      HPReach (some v) → HPReach (some (try_protect cand srcVal).2.2)
  | drop (v : Ptr) : HPReach (some v) → HPReach none

/-- std::swap of two m_cell members (cell indices; none = nullptr). -/
def hp_swap (a b : Option Nat) : Option Nat × Option Nat := (b, a)

/-- hazard_pointer::operator=(hazard_pointer&&): swap the m_cell members,
then store null through hp.m_cell — which after the swap is the TARGET's old
m_cell — and set hp.m_cell = nullptr. none models the dereference of a null
m_cell in that store. On success returns (target m_cell, source m_cell,
index of the cell that received the null store). -/
def hp_move_assign (this_cell hp_cell : Option Nat) :
    Option (Option Nat × Option Nat × Nat) :=
  let sw := hp_swap this_cell hp_cell
  match sw.2 with
  | none => none
  | some c => some (sw.1, none, c)

/-- hazard_pointer move constructor: the new object's m_cell is
default-initialized to nullptr, then swapped with the source. Returns
(new handle m_cell, source m_cell after the move). -/
def hp_move_ctor (source : Option Nat) : Option Nat × Option Nat :=
  hp_swap none source

/-- queue::queue state (sequential execution): the node chain from m_head.
Entry i is node i's element; the first entry is the sentinel node; next
pointers are the chain order, the last node's next being null. The
constructor allocates one sentinel node with a disengaged optional element
and null next, and points head and tail at it. -/
def queue_mk (α : Type) : List (Option α) := [none]

/-- queue::enqueue (sequential execution): link a new node
{ some v, next = null } after the last node and advance tail. -/
def q_enqueue {α : Type} (q : List (Option α)) (v : α) : List (Option α) :=
  q ++ [some v]

/-- queue::dequeue (sequential execution): protect head and head->next; when
next == nullptr return nullopt and leave the queue unchanged; otherwise the
CAS moves head to next, next's element is moved out and returned, and the old
head node is retired (the node holding the returned element becomes the new
sentinel). -/
def q_dequeue {α : Type} : List (Option α) → Option α × List (Option α)
  | [] => (none, [])
  | [s] => (none, [s])
  | _ :: x :: rest => (x, x :: rest)

/-- head == nullptr test on the modelled chain. -/
def q_head_is_null {α : Type} (q : List (Option α)) : Bool := q.isEmpty

/-- head->next == nullptr test: no node follows the sentinel. -/
def q_head_next_null {α : Type} (q : List (Option α)) : Bool := q.tail.isEmpty

/-- Abstract queue contents: the engaged payloads of the nodes after the
sentinel. -/
def q_contents {α : Type} (q : List (Option α)) : List α :=
  q.tail.filterMap id

/-- Reachable queue states: the constructor state followed by any sequence of
enqueue and dequeue operations. -/
inductive QueueReach {α : Type} : List (Option α) → Prop
  | mk : QueueReach (queue_mk α)
  | enq (q : List (Option α)) (v : α) : QueueReach q → QueueReach (q_enqueue q v)
  | deq (q : List (Option α)) : QueueReach q → QueueReach (q_dequeue q).2

/-- stack::stack state (sequential execution): the node chain from m_head
along the previous pointers. The default constructor leaves m_head null. -/
def stack_new (α : Type) : List α := []

/-- stack::push (sequential execution): allocate { v, previous = head } and
CAS it into m_head. -/
def stack_push {α : Type} (s : List α) (v : α) : List α := v :: s

/-- stack::pop (sequential execution): protect m_head; when null return
nullopt; otherwise CAS m_head to head->previous, move the element out and
retire the node. -/
def stack_pop {α : Type} : List α → Option α × List α
  | [] => (none, [])
  | x :: rest => (some x, rest)

/-
Theorems.  Helper lemmas first, then one theorem per claim (with
counterexamples and witnesses where required).
-/

lemma try_protect_eq (cand srcVal : Ptr) :
    try_protect cand srcVal =
      if cand = srcVal then (true, srcVal, reset_protection_val cand)
      else (false, srcVal, Ptr.sentinel) := rfl

lemma protect_loop_succ (src : Nat → Ptr) (fuel : Nat) (cand : Ptr) (k : Nat) :
    protect_loop src (fuel + 1) cand k =
      if cand = src k then some (src k, reset_protection_val cand, k)
      else protect_loop src fuel (src k) (k + 1) := by
  by_cases h : cand = src k <;>
    simp [protect_loop, try_protect_eq, h]

lemma protect_loop_spec (src : Nat → Ptr) :
    ∀ (fuel : Nat) (cand : Ptr) (k : Nat) (r cell : Ptr) (j : Nat),
      protect_loop src fuel cand k = some (r, cell, j) →
      r = src j ∧ cell = reset_protection_val r := by
  intro fuel
  induction fuel with
  | zero =>
    intro cand k r cell j h
    simp [protect_loop] at h
  | succ n ih =>
    intro cand k r cell j h
    rw [protect_loop_succ] at h
    by_cases hc : cand = src k
    · rw [if_pos hc] at h
      simp only [Option.some.injEq, Prod.mk.injEq] at h
      obtain ⟨rfl, rfl, rfl⟩ := h
      exact ⟨rfl, by rw [hc]⟩
    · rw [if_neg hc] at h
      exact ih (src k) (k + 1) r cell j h

/-- C1 counterexample: the claim says that on return the cell contains the
returned pointer; but when protect returns null the cell contains SENTINEL
(reset_protection stores SENTINEL in place of a null candidate). Concretely,
with a source that constantly reads null, protect returns null while the cell
holds SENTINEL. -/
theorem protect_cell_mismatch_cex :
    ¬ (∀ (init : Ptr) (src : Nat → Ptr) (fuel : Nat) (r cell : Ptr) (k : Nat),
        protect init src fuel = some (r, cell, k) → cell = r) := by
  intro h
  have h1 : protect Ptr.null (fun _ => Ptr.null) 1 =
      some (Ptr.null, Ptr.sentinel, 0) := rfl
  have h2 := h Ptr.null (fun _ => Ptr.null) 1 Ptr.null Ptr.sentinel 0 h1
  exact absurd h2 (by decide)

/-- C1 (amended): protect repeatedly publishes its current candidate into the
cell (SENTINEL in place of a null candidate) and re-reads src with acquire,
returning the candidate exactly when the re-read equals it; on return the
returned pointer equals the final acquire load of src, and the cell contains
the returned pointer when it is non-null, SENTINEL otherwise. -/
theorem protect_claim :
    (∀ cand srcVal : Ptr, ((try_protect cand srcVal).1 = true ↔ cand = srcVal)) ∧
    ∀ (init : Ptr) (src : Nat → Ptr) (fuel : Nat) (r cell : Ptr) (k : Nat),
      protect init src fuel = some (r, cell, k) →
      r = src k ∧ cell = reset_protection_val r := by
  constructor
  · intro cand srcVal
    rw [try_protect_eq]
    by_cases h : cand = srcVal <;> simp [h]
  · intro init src fuel r cell k h
    exact protect_loop_spec src fuel init 0 r cell k h

/-- Witness for C1: a stable source; protect returns the protected address and
the cell holds it. -/
theorem protect_claim_witness :
    Ptr.addr 1 = (fun _ => Ptr.addr 1) 0 ∧
    Ptr.addr 1 = reset_protection_val (Ptr.addr 1) :=
  protect_claim.2 (Ptr.addr 1) (fun _ => Ptr.addr 1) 1 (Ptr.addr 1) (Ptr.addr 1) 0 rfl

/-- C4 counterexample: reset_protection with a null argument does not publish
null; it publishes SENTINEL (the null case delegates to the nullary overload,
which stores the domain SENTINEL). -/
theorem reset_null_cex :
    ¬ (∀ v : Ptr, hp_reset (some v) Ptr.null = some Ptr.null) := by
  intro h
  exact absurd (h (Ptr.addr 1)) (by decide)

/-- C4 (amended): reset(null) publishes SENTINEL into the cell while the
handle keeps owning it; reset(p) with p non-null publishes p; a failed
try_protect resets the cell to SENTINEL before returning false. -/
theorem reset_protection_claim :
    (∀ v : Ptr, hp_reset (some v) Ptr.null = some Ptr.sentinel) ∧
    (∀ v p : Ptr, p ≠ Ptr.null → hp_reset (some v) p = some p) ∧
    (∀ cand srcVal : Ptr, cand ≠ srcVal →
      (try_protect cand srcVal).1 = false ∧
        (try_protect cand srcVal).2.2 = Ptr.sentinel) := by
  refine ⟨?_, ?_, ?_⟩
  · intro v
    simp [hp_reset, reset_protection_val]
  · intro v p hp
    simp [hp_reset, reset_protection_val, hp]
  · intro cand srcVal h
    rw [try_protect_eq]
    simp [h]

/-- Witness for C4 at concrete inputs. -/
theorem reset_protection_claim_witness :
    hp_reset (some (Ptr.addr 1)) Ptr.null = some Ptr.sentinel ∧
    hp_reset (some (Ptr.addr 1)) (Ptr.addr 2) = some (Ptr.addr 2) ∧
    ((try_protect (Ptr.addr 1) (Ptr.addr 2)).1 = false ∧
      (try_protect (Ptr.addr 1) (Ptr.addr 2)).2.2 = Ptr.sentinel) :=
  ⟨reset_protection_claim.1 (Ptr.addr 1),
   reset_protection_claim.2.1 (Ptr.addr 1) (Ptr.addr 2) (by decide),
   reset_protection_claim.2.2 (Ptr.addr 1) (Ptr.addr 2) (by decide)⟩

/-- C5 counterexample: retire(null) is not a no-op; the code appends null to
the caller's retire list without any check. With an empty list and threshold
2, the list afterwards is [null], not []. -/
theorem retire_null_cex :
    ¬ (∀ (max_objects : Nat) (cells : List Ptr) (tl : tl_block),
        retire max_objects cells tl Ptr.null = (tl, [])) := by
  intro h
  exact absurd (h 2 [Ptr.null, Ptr.null] (tl_init 2)) (by decide)

/-- C5 (amended): retire(null) is handled like any other pointer: the null
pointer is appended to the caller's retire list, and when the list length
then exceeds the threshold a scan is triggered (observable as the
delete_turn toggle). -/
theorem retire_null_appends_claim :
    ∀ (max_objects : Nat) (cells : List Ptr) (tl : tl_block),
      (tl.tl_retire.length < tl.amortization_factor →
        retire max_objects cells tl Ptr.null =
          (⟨tl.tl_retire ++ [Ptr.null], tl.delete_turn, tl.amortization_factor⟩, [])) ∧
      (tl.amortization_factor ≤ tl.tl_retire.length →
        (retire max_objects cells tl Ptr.null).1.delete_turn = !tl.delete_turn) := by
  intro N cells tl
  constructor
  · intro h
    simp only [retire]
    rw [if_neg (by simp only [List.length_append, List.length_cons, List.length_nil]; omega)]
  · intro h
    simp only [retire]
    rw [if_pos (by simp only [List.length_append, List.length_cons, List.length_nil]; omega)]
    simp [delete_hazards]

/-- Witness for C5 at concrete inputs: one call below the threshold (list
grows by the null entry, no scan) and one above it (scan runs). -/
theorem retire_null_appends_witness :
    retire 2 [] (tl_init 2) Ptr.null = (⟨[Ptr.null], false, 2⟩, []) ∧
    (retire 1 [] ⟨[Ptr.addr 1], false, 1⟩ Ptr.null).1.delete_turn = true := by
  constructor
  · have := (retire_null_appends_claim 2 [] (tl_init 2)).1 (by decide)
    simpa [tl_init] using this
  · have := (retire_null_appends_claim 1 [] ⟨[Ptr.addr 1], false, 1⟩).2 (by decide)
    simpa using this

lemma threshold_after_eq (N : Nat) :
    ∀ k, threshold_after N k = min (2 ^ k * N) (32 * N) := by
  intro k
  induction k with
  | zero =>
    simp only [threshold_after, pow_zero, one_mul]
    omega
  | succ n ih =>
    have h2 : 2 ^ (n + 1) * N = 2 ^ n * N * 2 := by ring
    simp only [threshold_after, amortize_update, ih, h2]
    omega

/-- C7: the threshold starts at max_objects; each scan doubles it and caps it
at 32 * max_objects, so after k scans it equals
min(2^k * max_objects, 32 * max_objects); the bound
max_objects ≤ threshold ≤ 32 * max_objects is preserved by delete_hazards
and by retire. -/
theorem amortization_threshold_claim (max_objects : Nat) :
    (tl_init max_objects).amortization_factor = max_objects ∧
    (∀ k : Nat, threshold_after max_objects k =
        min (2 ^ k * max_objects) (32 * max_objects)) ∧
    (∀ (cells : List Ptr) (tl : tl_block),
      max_objects ≤ tl.amortization_factor →
      tl.amortization_factor ≤ 32 * max_objects →
        max_objects ≤ (delete_hazards max_objects cells tl).1.amortization_factor ∧
        (delete_hazards max_objects cells tl).1.amortization_factor ≤ 32 * max_objects) ∧
    (∀ (cells : List Ptr) (tl : tl_block) (p : Ptr),
      max_objects ≤ tl.amortization_factor →
      tl.amortization_factor ≤ 32 * max_objects →
        max_objects ≤ (retire max_objects cells tl p).1.amortization_factor ∧
        (retire max_objects cells tl p).1.amortization_factor ≤ 32 * max_objects) := by
  refine ⟨rfl, threshold_after_eq max_objects, ?_, ?_⟩
  · intro cells tl h1 h2
    simp only [delete_hazards, amortize_update]
    constructor <;> omega
  · intro cells tl p h1 h2
    simp only [retire]
    split
    · simp only [delete_hazards, amortize_update]
      constructor <;> omega
    · exact ⟨h1, h2⟩

/-- Witness for C7 at max_objects = 2. -/
theorem amortization_threshold_witness :
    (tl_init 2).amortization_factor = 2 ∧
    (2 ≤ (delete_hazards 2 [] (tl_init 2)).1.amortization_factor ∧
      (delete_hazards 2 [] (tl_init 2)).1.amortization_factor ≤ 32 * 2) :=
  ⟨(amortization_threshold_claim 2).1,
   (amortization_threshold_claim 2).2.2.1 [] (tl_init 2) (by decide) (by decide)⟩

/-- C9: push(v) then pop() on an empty stack returns some v and leaves the
stack empty again, for every element type and value. -/
theorem stack_roundtrip_claim :
    ∀ (α : Type) (v : α),
      stack_pop (stack_push (stack_new α) v) = (some v, stack_new α) := by
  intro α v
  rfl

/-- Witness for C9 at a concrete type and value. -/
theorem stack_roundtrip_witness :
    stack_pop (stack_push (stack_new Nat) 42) = (some 42, stack_new Nat) :=
  stack_roundtrip_claim Nat 42

/-- C10: move-assignment stores null through the target's old m_cell (swapped
into the source handle); the null-dereference branch is taken exactly when
the target was detached, and when the target owns cell c the null store goes
to c and the assignment succeeds; a move-constructed-from handle is left
detached. -/
theorem move_assign_claim :
    ∀ t s : Option Nat,
      (hp_move_assign t s = none ↔ t = none) ∧
      (∀ c : Nat, t = some c → hp_move_assign t s = some (s, none, c)) ∧
      hp_move_ctor s = (s, none) := by
  intro t s
  refine ⟨?_, ?_, rfl⟩
  · cases t <;> simp [hp_move_assign, hp_swap]
  · intro c hc
    subst hc
    rfl

/-- Witness for C10 at concrete handles. -/
theorem move_assign_witness :
    (hp_move_assign none (some 0) = none ↔ (none : Option Nat) = none) ∧
    hp_move_assign (some 1) (some 0) = some (some 0, none, 1) :=
  ⟨(move_assign_claim none (some 0)).1,
   (move_assign_claim (some 1) (some 0)).2.1 1 rfl⟩

lemma capture_cell_none_of_all_nonnull :
    ∀ cells : List Ptr, (∀ c ∈ cells, c ≠ Ptr.null) → capture_cell cells = none := by
  intro cells
  induction cells with
  | nil => intro h; rfl
  | cons c rest ih =>
    intro h
    have hc : c ≠ Ptr.null := h c (List.mem_cons_self c rest)
    have hrest := ih (fun x hx => h x (List.mem_cons_of_mem c hx))
    simp [capture_cell, hc, hrest]

lemma capture_cell_replicate (t : List Ptr) :
    ∀ k : Nat, capture_cell (List.replicate k Ptr.sentinel ++ Ptr.null :: t) =
      some (k, List.replicate k Ptr.sentinel ++ Ptr.sentinel :: t) := by
  intro k
  induction k with
  | zero => simp [capture_cell]
  | succ n ih =>
    simp [List.replicate_succ, capture_cell, ih]

lemma capture_iter_replicate :
    ∀ (m k : Nat),
      capture_iter m (List.replicate k Ptr.sentinel ++ List.replicate m Ptr.null) =
        List.replicate (k + m) Ptr.sentinel := by
  intro m
  induction m with
  | zero => intro k; simp [capture_iter]
  | succ n ih =>
    intro k
    rw [List.replicate_succ]
    simp only [capture_iter, capture_cell_replicate]
    have hstep : List.replicate k Ptr.sentinel ++ Ptr.sentinel :: List.replicate n Ptr.null =
        List.replicate (k + 1) Ptr.sentinel ++ List.replicate n Ptr.null := by
      rw [List.replicate_succ']
      simp
    rw [hstep, ih (k + 1)]
    congr 1
    omega

/-- C3: when every cell is non-null (all taken), capture_cell hits the
fall-through where the loop ends without a successful CAS and the
assert(it != m_acquire_list.end()) fails — a deterministic abort rather than
a returned cell; in particular after N captures on a fresh N-cell domain the
next capture fails. -/
theorem capture_cell_exhaustion_claim :
    ∀ cells : List Ptr, (∀ c ∈ cells, c ≠ Ptr.null) →
      capture_cell cells = none ∧
      ∀ N : Nat, capture_cell (capture_iter N (List.replicate N Ptr.null)) = none := by
  intro cells h
  refine ⟨capture_cell_none_of_all_nonnull cells h, ?_⟩
  intro N
  have hfull := capture_iter_replicate N 0
  simp only [List.replicate, List.nil_append, Nat.zero_add] at hfull
  rw [hfull]
  refine capture_cell_none_of_all_nonnull _ ?_
  intro c hc
  rw [List.eq_of_mem_replicate hc]
  decide

/-- Witness for C3: a two-cell domain with one reserved and one publishing
cell has no free cell, and capture fails. -/
theorem capture_cell_exhaustion_witness :
    capture_cell [Ptr.sentinel, Ptr.addr 3] = none :=
  (capture_cell_exhaustion_claim [Ptr.sentinel, Ptr.addr 3] (by decide)).1

lemma reset_protection_val_ne_null (p : Ptr) : reset_protection_val p ≠ Ptr.null := by
  by_cases h : p = Ptr.null
  · simp [reset_protection_val, h]
  · simp only [reset_protection_val, if_neg h]
    exact h

lemma try_protect_cell_ne_null (cand srcVal : Ptr) :
    (try_protect cand srcVal).2.2 ≠ Ptr.null := by
  rw [try_protect_eq]
  by_cases h : cand = srcVal
  · simp only [if_pos h]
    exact reset_protection_val_ne_null cand
  · simp only [if_neg h]
    intro hh
    exact Ptr.noConfusion hh

lemma hp_reach_some_ne_null :
    ∀ s : Option Ptr, HPReach s → ∀ v : Ptr, s = some v → v ≠ Ptr.null := by
  intro s h
  induction h with
  | detached => intro v hv; exact absurd hv (by simp)
  | make =>
    intro v hv
    injection hv with hv'
    subst hv'
    decide
  | reset v0 p h ih =>
    intro v hv
    simp only [hp_reset, Option.map_some'] at hv
    injection hv with hv'
    subst hv'
    exact reset_protection_val_ne_null p
  | try_step v0 cand srcVal h ih =>
    intro v hv
    injection hv with hv'
    subst hv'
    exact try_protect_cell_ne_null cand srcVal
  | drop v0 h ih => intro v hv; exact absurd hv (by simp)

/-- C6: for every reachable cell-owning handle, empty() is true iff the cell
value is null. The code returns m_cell == nullptr, which is false for a
cell-owning handle, and the owned cell never holds null (capture leaves
SENTINEL; every later store through the handle writes SENTINEL or a non-null
pointer), so both sides of the biconditional are false. -/
theorem empty_iff_cell_null_claim (s : Option Ptr) (v : Ptr)
    (hreach : HPReach s) (hv : s = some v) :
    (hp_empty s = true ↔ v = Ptr.null) := by
  have hne := hp_reach_some_ne_null s hreach v hv
  subst hv
  simp [hp_empty, hne]

/-- Witness for C6: a freshly made handle (cell = SENTINEL). -/
theorem empty_iff_cell_null_witness :
    hp_empty (some Ptr.sentinel) = true ↔ Ptr.sentinel = Ptr.null :=
  empty_iff_cell_null_claim (some Ptr.sentinel) Ptr.sentinel HPReach.make rfl

lemma queue_reach_inv {α : Type} :
    ∀ q : List (Option α), QueueReach q → q ≠ [] ∧ ∀ x ∈ q.tail, x ≠ none := by
  intro q h
  induction h with
  | mk =>
    refine ⟨by simp [queue_mk], ?_⟩
    intro x hx
    simp [queue_mk] at hx
  | enq q0 v h ih =>
    obtain ⟨hne, htail⟩ := ih
    refine ⟨by simp [q_enqueue], ?_⟩
    intro x hx
    cases q0 with
    | nil => exact absurd rfl hne
    | cons a t =>
      simp only [q_enqueue, List.cons_append, List.tail_cons] at hx
      rcases List.mem_append.mp hx with hx | hx
      · exact htail x hx
      · simp only [List.mem_singleton] at hx
        subst hx
        simp
  | deq q0 h ih =>
    obtain ⟨hne, htail⟩ := ih
    cases q0 with
    | nil => exact absurd rfl hne
    | cons s t =>
      cases t with
      | nil => exact ⟨by simp [q_dequeue], by simp [q_dequeue]⟩
      | cons y t' =>
        refine ⟨by simp [q_dequeue], ?_⟩
        intro x hx
        simp only [q_dequeue, List.tail_cons] at hx
        exact htail x (List.mem_cons_of_mem y hx)

/-- C8: for every reachable queue state the head pointer is non-null (there
is always a sentinel node), the queue is empty (holds no values) iff
head->next == nullptr, and dequeue on a freshly constructed queue returns
nullopt and leaves the queue unchanged. -/
theorem queue_sentinel_claim {α : Type} (q : List (Option α)) (h : QueueReach q) :
    q_head_is_null q = false ∧
    (q_contents q = [] ↔ q_head_next_null q = true) ∧
    q_dequeue (queue_mk α) = (none, queue_mk α) := by
  obtain ⟨hne, htail⟩ := queue_reach_inv q h
  refine ⟨?_, ?_, rfl⟩
  · cases q with
    | nil => exact absurd rfl hne
    | cons s t => rfl
  · cases q with
    | nil => exact absurd rfl hne
    | cons s t =>
      cases t with
      | nil => simp [q_contents, q_head_next_null]
      | cons y t' =>
        have hy : y ≠ none := htail y (by simp)
        constructor
        · intro hcon
          exfalso
          cases y with
          | none => exact hy rfl
          | some a => simp [q_contents] at hcon
        · intro hn
          simp [q_head_next_null] at hn

/-- Witness for C8: the freshly constructed queue. -/
theorem queue_sentinel_witness :
    q_head_is_null (queue_mk Nat) = false ∧
    (q_contents (queue_mk Nat) = [] ↔ q_head_next_null (queue_mk Nat) = true) ∧
    q_dequeue (queue_mk Nat) = (none, queue_mk Nat) :=
  queue_sentinel_claim (queue_mk Nat) QueueReach.mk

lemma scan_for_hazard_iff_mem (p : Ptr) (l : List Ptr) :
    scan_for_hazard p l = true ↔ p ∈ l := by
  induction l with
  | nil => simp [scan_for_hazard]
  | cons a t ih =>
    by_cases h : p = a <;> simp [scan_for_hazard, h, ih]

lemma filter_eq_self_of_all {l : List Ptr} {f : Ptr → Bool}
    (h : ∀ x ∈ l, f x = true) : l.filter f = l := by
  induction l with
  | nil => rfl
  | cons a t ih =>
    simp [List.filter_cons, h a (List.mem_cons_self a t),
      ih (fun x hx => h x (List.mem_cons_of_mem a hx))]

lemma filter_eq_nil_of_none {l : List Ptr} {f : Ptr → Bool}
    (h : ∀ x ∈ l, f x = false) : l.filter f = [] := by
  induction l with
  | nil => rfl
  | cons a t ih =>
    simp [List.filter_cons, h a (List.mem_cons_self a t),
      ih (fun x hx => h x (List.mem_cons_of_mem a hx))]

lemma dh_loop_spec (snapshot : List Ptr) :
    ∀ (n : Nat) (l : List Ptr), l.length ≤ n →
      ((delete_hazards_loop snapshot l).1 ++ (delete_hazards_loop snapshot l).2).Perm l ∧
      (∀ x ∈ (delete_hazards_loop snapshot l).1, scan_for_hazard x snapshot = true) ∧
      (∀ x ∈ (delete_hazards_loop snapshot l).2, scan_for_hazard x snapshot = false) := by
  intro n
  induction n with
  | zero =>
    intro l hl
    have hnil : l = [] := List.length_eq_zero.mp (Nat.le_zero.mp hl)
    subst hnil
    refine ⟨by simp [delete_hazards_loop], ?_, ?_⟩ <;>
      intro x hx <;> simp [delete_hazards_loop] at hx
  | succ n ih =>
    intro l hl
    match l with
    | [] =>
      refine ⟨by simp [delete_hazards_loop], ?_, ?_⟩ <;>
        intro x hx <;> simp [delete_hazards_loop] at hx
    | [p] =>
      by_cases h : scan_for_hazard p snapshot = true
      · refine ⟨by simp [delete_hazards_loop, h], ?_, ?_⟩
        · intro x hx
          simp only [delete_hazards_loop, h, if_true] at hx
          simp only [List.mem_singleton] at hx
          subst hx
          exact h
        · intro x hx
          simp [delete_hazards_loop, h] at hx
      · have hB : scan_for_hazard p snapshot = false := by simpa using h
        refine ⟨by simp [delete_hazards_loop, hB], ?_, ?_⟩
        · intro x hx
          simp [delete_hazards_loop, hB] at hx
        · intro x hx
          simp only [delete_hazards_loop, hB, Bool.false_eq_true, if_false] at hx
          simp only [List.mem_singleton] at hx
          subst hx
          exact hB
    | p :: q :: rest =>
      have hlen : (q :: rest).length ≤ n := by
        simp only [List.length_cons] at hl ⊢
        omega
      by_cases h : scan_for_hazard p snapshot = true
      · obtain ⟨hperm, hk, hd⟩ := ih (q :: rest) hlen
        refine ⟨?_, ?_, ?_⟩
        · simp only [delete_hazards_loop, h, if_true, List.cons_append]
          exact hperm.cons p
        · intro x hx
          simp only [delete_hazards_loop, h, if_true, List.mem_cons] at hx
          rcases hx with rfl | hx
          · exact h
          · exact hk x hx
        · intro x hx
          simp only [delete_hazards_loop, h, if_true] at hx
          exact hd x hx
      · have hB : scan_for_hazard p snapshot = false := by simpa using h
        have hwlen :
            ((q :: rest).getLast (List.cons_ne_nil q rest) :: (q :: rest).dropLast).length ≤ n := by
          simp only [List.length_cons, List.length_dropLast] at hl ⊢
          omega
        obtain ⟨hperm, hk, hd⟩ :=
          ih ((q :: rest).getLast (List.cons_ne_nil q rest) :: (q :: rest).dropLast) hwlen
        have hwperm :
            ((q :: rest).getLast (List.cons_ne_nil q rest) :: (q :: rest).dropLast).Perm
              (q :: rest) := by
          have h1 : (q :: rest).dropLast ++ [(q :: rest).getLast (List.cons_ne_nil q rest)] =
              q :: rest := List.dropLast_append_getLast (List.cons_ne_nil q rest)
          have h2 :
              ([(q :: rest).getLast (List.cons_ne_nil q rest)] ++ (q :: rest).dropLast).Perm
                ((q :: rest).dropLast ++ [(q :: rest).getLast (List.cons_ne_nil q rest)]) :=
            List.perm_append_comm
          rw [h1] at h2
          simpa using h2
        refine ⟨?_, ?_, ?_⟩
        · simp only [delete_hazards_loop, hB, Bool.false_eq_true, if_false]
          exact List.perm_middle.trans ((hperm.trans hwperm).cons p)
        · intro x hx
          simp only [delete_hazards_loop, hB, Bool.false_eq_true, if_false] at hx
          exact hk x hx
        · intro x hx
          simp only [delete_hazards_loop, hB, Bool.false_eq_true, if_false,
            List.mem_cons] at hx
          rcases hx with rfl | hx
          · exact hB
          · exact hd x hx

/-- C2: one scan over the retire list partitions it against the snapshot
taken at its start: the deleted entries are exactly (as a multiset) the
entries matching no snapshot value, the kept entries are exactly the entries
matching some snapshot value, so every entry is examined once, none is freed
twice and none is lost; scan_for_hazard is membership in the snapshot. -/
theorem delete_hazards_partition_claim (max_objects : Nat) (cells : List Ptr)
    (tl : tl_block) :
    ((delete_hazards max_objects cells tl).1.tl_retire).Perm
      (tl.tl_retire.filter fun p => scan_for_hazard p (acquire_snapshot cells)) ∧
    ((delete_hazards max_objects cells tl).2).Perm
      (tl.tl_retire.filter fun p => !scan_for_hazard p (acquire_snapshot cells)) ∧
    ∀ p : Ptr, scan_for_hazard p (acquire_snapshot cells) = true ↔
      p ∈ acquire_snapshot cells := by
  obtain ⟨hperm, hk, hd⟩ :=
    dh_loop_spec (acquire_snapshot cells) tl.tl_retire.length tl.tl_retire le_rfl
  have hkept :
      ((delete_hazards_loop (acquire_snapshot cells) tl.tl_retire).1).Perm
        (tl.tl_retire.filter fun p => scan_for_hazard p (acquire_snapshot cells)) := by
    have h1 := hperm.filter (fun p => scan_for_hazard p (acquire_snapshot cells))
    rw [List.filter_append, filter_eq_self_of_all hk, filter_eq_nil_of_none hd,
      List.append_nil] at h1
    exact h1
  have hdel :
      ((delete_hazards_loop (acquire_snapshot cells) tl.tl_retire).2).Perm
        (tl.tl_retire.filter fun p => !scan_for_hazard p (acquire_snapshot cells)) := by
    have h1 := hperm.filter (fun p => !scan_for_hazard p (acquire_snapshot cells))
    have hk' : ∀ x ∈ (delete_hazards_loop (acquire_snapshot cells) tl.tl_retire).1,
        (!scan_for_hazard x (acquire_snapshot cells)) = false := by
      intro x hx
      simp [hk x hx]
    have hd' : ∀ x ∈ (delete_hazards_loop (acquire_snapshot cells) tl.tl_retire).2,
        (!scan_for_hazard x (acquire_snapshot cells)) = true := by
      intro x hx
      simp [hd x hx]
    rw [List.filter_append, filter_eq_nil_of_none hk', filter_eq_self_of_all hd',
      List.nil_append] at h1
    exact h1
  exact ⟨hkept, hdel, fun p => scan_for_hazard_iff_mem p (acquire_snapshot cells)⟩

/-- Witness for C2 at a concrete scan: snapshot [addr 1, null], retire list
[addr 1, addr 2]; addr 1 is kept, addr 2 is deleted. -/
theorem delete_hazards_partition_witness :
    ((delete_hazards 2 [Ptr.addr 1, Ptr.null] ⟨[Ptr.addr 1, Ptr.addr 2], false, 2⟩).1.tl_retire).Perm
      ([Ptr.addr 1, Ptr.addr 2].filter fun p =>
        scan_for_hazard p (acquire_snapshot [Ptr.addr 1, Ptr.null])) :=
  (delete_hazards_partition_claim 2 [Ptr.addr 1, Ptr.null]
    ⟨[Ptr.addr 1, Ptr.addr 2], false, 2⟩).1
